import Mathlib

/-!
Verification development for the telegram-pdf-rename-bot repository.

Strings are modelled as `List Char`. The two source files embedded here are
`src/code.py` (interactive conversation variant) and `src/bot.py`
(command-based variant). Pure filename computations are translated directly;
filesystem effects are modelled by an association list from paths to file
contents, with the fallibility of `os.rename` / `os.remove` made explicit by
a boolean oracle argument (`True` = the OS call succeeds, `False` = it raises
`OSError`/`PermissionError`, which the code catches).
-/

/-- Characters removed by the regex `[<>:"/\\|?*\x00-\x1F]` in
`sanitize_filename` (src/code.py line 56, src/bot.py line 32). -/
def isIllegalChar (c : Char) : Bool :=
  c == '<' || c == '>' || c == ':' || c == '"' || c == '/' || c == '\\' ||
  c == '|' || c == '?' || c == '*' || decide (c.toNat ≤ 0x1F)

/-- The character set of Python `str.strip(' .')` (src/code.py line 60). -/
def isSpaceOrDot (c : Char) : Bool := c == ' ' || c == '.'

/-- ASCII part of the character set of Python `str.strip()` with no
arguments (src/bot.py line 33). -/
def isPyWhitespace (c : Char) : Bool :=
  c == ' ' || c == '\t' || c == '\n' || c == '\r' || c == '\x0b' || c == '\x0c'

/-- Python `s.replace(old, new)` for the degenerate case `old = ""`:
`new` is inserted at every character boundary. Call sites in the sources
guard against this case. -/
def pyReplaceEmptyPat (new : List Char) : List Char → List Char
  | [] => new
  | c :: rest => new ++ c :: pyReplaceEmptyPat new rest

/-- Scanner for Python `s.replace(old, new)` with non-empty `old`:
left-to-right, non-overlapping. After a match the first matched character is
consumed by the branch itself and the remaining `old.length - 1` matched
characters are consumed through the skip counter. -/
def replAux (old new : List Char) : Nat → List Char → List Char
  | _, [] => []
  | skip+1, _ :: rest => replAux old new skip rest
  | 0, c :: rest =>
      if old.isPrefixOf (c :: rest) then new ++ replAux old new (old.length - 1) rest
      else c :: replAux old new 0 rest

/-- Python `s.replace(old, new)`. -/
def pyReplace (old new s : List Char) : List Char :=
  if old.isEmpty then pyReplaceEmptyPat new s else replAux old new 0 s

/-- Prepend a character to the first segment of a split result. -/
def consFirstSeg (c : Char) : List (List Char) → List (List Char)
  | [] => [[c]]
  | seg :: rest => (c :: seg) :: rest

/-- Scanner for Python `s.split(sep)` with non-empty `sep`, same scan order
as `replAux`. Used to state that `replace` rewrites every occurrence. -/
def splitAux (sep : List Char) : Nat → List Char → List (List Char)
  | _, [] => [[]]
  | skip+1, _ :: rest => splitAux sep skip rest
  | 0, c :: rest =>
      if sep.isPrefixOf (c :: rest) then [] :: splitAux sep (sep.length - 1) rest
      else consFirstSeg c (splitAux sep 0 rest)

/-- Python `s.split(sep)` for non-empty `sep`. -/
def pySplit (sep s : List Char) : List (List Char) := splitAux sep 0 s

/-- Python `s.strip(chars)`: remove characters satisfying `p` from both
ends. -/
def pyStrip (p : Char → Bool) (s : List Char) : List Char :=
  ((s.dropWhile p).reverse.dropWhile p).reverse

/-- Shallow embedding of `sanitize_filename` (src/code.py lines 53-62):
remove dangerous characters, delete `..` occurrences, strip leading and
trailing spaces/dots, and fall back to the literal `"unnamed.pdf"` when the
result is empty. -/
def sanitize_filename (s : List Char) : List Char :=
  let f1 := s.filter (fun c => !isIllegalChar c)
  let f2 := pyReplace ['.', '.'] [] f1
  let f3 := pyStrip isSpaceOrDot f2
  if f3.isEmpty then "unnamed.pdf".toList else f3

/-- Shallow embedding of `sanitize_filename` (src/bot.py lines 30-34). It
differs from the src/code.py variant only in the final strip: `.strip()`
with no argument strips whitespace instead of spaces and dots. -/
def bot_sanitize_filename (s : List Char) : List Char :=
  let f1 := s.filter (fun c => !isIllegalChar c)
  let f2 := pyReplace ['.', '.'] [] f1
  let f3 := pyStrip isPyWhitespace f2
  if f3.isEmpty then "unnamed.pdf".toList else f3

/-- The common shape of the two sanitizers: they differ only in the strip
character set `p`. `sanitize_filename` is `sanitize_core isSpaceOrDot` and
`bot_sanitize_filename` is `sanitize_core isPyWhitespace` (both by `rfl`,
proved below). -/
def sanitize_core (p : Char → Bool) (s : List Char) : List Char :=
  let f3 := pyStrip p (pyReplace ['.', '.'] [] (s.filter (fun c => !isIllegalChar c)))
  if f3.isEmpty then "unnamed.pdf".toList else f3

/-- The nine characters named by the specification: `/ \ : * ? " < > |`. -/
def isClaimBadChar (c : Char) : Bool :=
  c == '/' || c == '\\' || c == ':' || c == '*' || c == '?' ||
  c == '"' || c == '<' || c == '>' || c == '|'

/-- Index of the last `'.'` in the list, if any. -/
def lastDotIdx : List Char → Option Nat
  | [] => none
  | c :: rest =>
    match lastDotIdx rest with
    | some i => some (i + 1)
    | none => if c == '.' then some 0 else none

/-- `os.path.splitext` restricted to plain file names (the sources only call
it on sanitized names without path separators): split at the last dot unless
every character before it is a dot (so `".pdf"` has no extension). -/
def splitext (s : List Char) : List Char × List Char :=
  match lastDotIdx s with
  | none => (s, [])
  | some i =>
    if (s.take i).all (fun c => c == '.') then (s, [])
    else (s.take i, s.drop i)

/-- The three case transformations offered by the `case_map` of
src/code.py line 537. -/
inductive CaseMode
  | upper
  | lower
  | title
deriving DecidableEq

/-- Python `str.upper` (ASCII behaviour). -/
def pyUpper (s : List Char) : List Char := s.map Char.toUpper

/-- Python `str.lower` (ASCII behaviour). -/
def pyLower (s : List Char) : List Char := s.map Char.toLower

/-- Python `str.title` (ASCII behaviour): uppercase every letter that
follows a non-letter, lowercase the other letters. -/
def pyTitleAux : Bool → List Char → List Char
  | _, [] => []
  | prevAlpha, c :: rest =>
      (if c.isAlpha then (if prevAlpha then c.toLower else c.toUpper) else c) ::
        pyTitleAux c.isAlpha rest

/-- Python `str.title` (ASCII behaviour). -/
def pyTitle (s : List Char) : List Char := pyTitleAux false s

/-- The `pdf_data` dictionary created in src/code.py lines 301-311. The
nested `replace` dictionary is flattened into `replace_old`/`replace_new`;
`replace_new` is an `Option` because the code tests `get('new') is not
None`. The `case` key is `caseMode` (`case` is reserved in Lean) and the
`prefix` key is `prefix_` (`prefix` is reserved in Lean). -/
structure PdfData where
  original_name : List Char
  file_path : List Char
  prefix_ : List Char
  suffix : List Char
  remove : List Char
  replace_old : List Char
  replace_new : Option (List Char)
  caseMode : Option CaseMode
  timestamp_format : Option (List Char)
  timestamp : List Char
deriving DecidableEq

/-- The initial `pdf_data` record (src/code.py lines 301-311). -/
def initial_pdf_data (original_name file_path : List Char) : PdfData :=
  { original_name := original_name
    file_path := file_path
    prefix_ := []
    suffix := []
    remove := []
    replace_old := []
    replace_new := some []
    caseMode := none
    timestamp_format := none
    timestamp := [] }

/-- Step 1 of the pipeline (src/code.py lines 91-93, src/bot.py lines
364-366): `if pdf_data.get('remove'): new_name.replace(remove, '')` — the
empty-string guard comes from Python truthiness. -/
def remove_step (remove stem : List Char) : List Char :=
  if remove.isEmpty then stem else pyReplace remove [] stem

/-- Step 2 of the pipeline (src/code.py lines 95-98):
`if replace_data.get('old') and replace_data.get('new') is not None:` —
applied whenever `old` is non-empty and `new` is present, even when `new`
is the empty string. -/
def replace_step (replace_old : List Char) (replace_new : Option (List Char))
    (stem : List Char) : List Char :=
  if !replace_old.isEmpty && !replace_new.isNone then
    pyReplace replace_old (replace_new.getD []) stem
  else stem

/-- The replace step of src/bot.py `apply_changes` lines 368-370:
`if replace_data['old'] and replace_data['new']:` — both `old` and `new`
must be truthy (non-empty), so an empty `new` skips the replacement. -/
def bot_replace_step (replace_old replace_new stem : List Char) : List Char :=
  if !replace_old.isEmpty && !replace_new.isEmpty then
    pyReplace replace_old replace_new stem
  else stem

/-- Step 3 of the pipeline (src/code.py lines 100-107): the
`upper`/`lower`/`title` elif chain; any other value leaves the stem
unchanged. -/
def case_step (caseMode : Option CaseMode) (stem : List Char) : List Char :=
  match caseMode with
  | some CaseMode.upper => pyUpper stem
  | some CaseMode.lower => pyLower stem
  | some CaseMode.title => pyTitle stem
  | none => stem

/-- The stem after steps 1-3 of src/code.py `generate_preview_filename`
(lines 86-107), in the fixed order remove, replace, case. -/
def pipeline_stem (d : PdfData) : List Char :=
  case_step d.caseMode
    (replace_step d.replace_old d.replace_new
      (remove_step d.remove (splitext d.original_name).1))

/-- Step 4 of the pipeline (src/code.py lines 109-116):
`final_name_parts = [part for part in [prefix, timestamp, new_name, suffix]
if part]` joined with `"_"`. -/
def compose_base (d : PdfData) (stem : List Char) : List Char :=
  List.intercalate ['_']
    ([d.prefix_, d.timestamp, stem, d.suffix].filter (fun p => !p.isEmpty))

/-- Shallow embedding of `generate_preview_filename` (src/code.py lines
81-122): split the extension, apply remove, replace and case to the stem in
that order (`pipeline_stem`), join the non-empty parts
`[prefix, timestamp, stem, suffix]` with `"_"` (`compose_base`), substitute
`"renamed_pdf"` if the joined base strips to empty (line 118), and sanitize
the result with the extension appended (line 122). -/
def generate_preview_filename (d : PdfData) : List Char :=
  let base := compose_base d (pipeline_stem d)
  let base2 := if (pyStrip isSpaceOrDot base).isEmpty then "renamed_pdf".toList else base
  sanitize_filename (base2 ++ (splitext d.original_name).2)

/-- The pure filename computation of src/bot.py `apply_changes` lines
360-378: remove, then replace (only when both `old` and `new` are
non-empty), then direct concatenation `prefix ++ stem ++ suffix`; `none` is
returned when the concatenation strips to empty (the code replies with an
error and keeps the session), otherwise the sanitized name with extension. -/
def bot_compute_new_filename (original_name pfx sfx remove replace_old replace_new : List Char) :
    Option (List Char) :=
  let ne := splitext original_name
  let n1 := remove_step remove ne.1
  let n2 := bot_replace_step replace_old replace_new n1
  let n3 := pfx ++ n2 ++ sfx
  if (pyStrip isPyWhitespace n3).isEmpty then none
  else some (bot_sanitize_filename (n3 ++ ne.2))

/-! ## Filesystem and session model -/

/-- Filesystem: association list from paths to file contents (contents
abstracted as naturals). -/
abbrev Fs := List (List Char × Nat)

/-- `os.path.exists`. -/
def fsExists (fs : Fs) (p : List Char) : Bool := (fs.lookup p).isSome

/-- `os.remove`: drop the entry for `p`. -/
def fsRemove (fs : Fs) (p : List Char) : Fs := fs.filter (fun e => !(e.1 == p))

/-- Successful `os.rename src dst`: the content of `src` now lives at `dst`
(silently replacing any file at `dst`, POSIX semantics) and `src` is gone.
If `src` does not exist the filesystem is unchanged (the real call would
raise; call sites only reach it with an existing source). -/
def fsRename (fs : Fs) (src dst : List Char) : Fs :=
  match fs.lookup src with
  | none => fs
  | some v => (dst, v) :: fsRemove (fsRemove fs src) dst

/-- `os.path.join(dir, name)`. -/
def pathJoin (dir name : List Char) : List Char := dir ++ '/' :: name

/-- Result of the rename block: the filesystem afterwards and the committed
destination path (`none` when `os.rename` raised). -/
structure CommitResult where
  fs : Fs
  dest : Option (List Char)
deriving DecidableEq

/-- Shallow embedding of the rename block of src/code.py `apply_changes`
(lines 624-645): skip when the paths are equal; otherwise, if the target
exists, append `"_" + datetime.now().strftime('%f')` (the argument `micro`)
to the stem; then `os.rename`. `renameOk` is the OS oracle: on `false` the
`except` branch runs and nothing was changed on disk. -/
def apply_commit (fs : Fs) (origPath userDir finalName micro : List Char)
    (renameOk : Bool) : CommitResult :=
  let newPath := pathJoin userDir finalName
  if origPath == newPath then { fs := fs, dest := some newPath }
  else
    let target :=
      if fsExists fs newPath then
        let be := splitext finalName
        pathJoin userDir (be.1 ++ '_' :: micro ++ be.2)
      else newPath
    if renameOk then { fs := fsRename fs origPath target, dest := some target }
    else { fs := fs, dest := none }

/-- Shallow embedding of the collision check and rename of src/bot.py
`apply_changes` (lines 379-411, the path taken when compression is off or
failed): if the target exists, append `"_" + user_id` (decimal rendering
passed as `userId`) to the stem; then `os.rename`. -/
def bot_apply_commit (fs : Fs) (origPath userDir newFilename userId : List Char)
    (renameOk : Bool) : CommitResult :=
  let newPath := pathJoin userDir newFilename
  let target :=
    if fsExists fs newPath then
      let be := splitext newFilename
      pathJoin userDir (be.1 ++ '_' :: userId ++ be.2)
    else newPath
  if renameOk then { fs := fsRename fs origPath target, dest := some target }
  else { fs := fs, dest := none }

/-- The per-user session record: the `pdf_data` entry and the interactive
`message_id` entry of `context.user_data`. -/
structure UserData where
  pdf_data : Option PdfData
  message_id : Option Nat
deriving DecidableEq

/-- Shallow embedding of `safe_cleanup` (src/code.py lines 64-74): try to
remove the file when a path is given and it exists (`removeOk` is the OS
oracle; on `false` the `except` branch logs and continues), then
unconditionally pop `pdf_data` and `message_id`. -/
def safe_cleanup (fs : Fs) (filePath : Option (List Char)) (removeOk : Bool)
    (_ud : UserData) : Fs × UserData :=
  let fs' :=
    match filePath with
    | some p => if fsExists fs p then (if removeOk then fsRemove fs p else fs) else fs
    | none => fs
  (fs', { pdf_data := none, message_id := none })

/-- Shallow embedding of `cancel_operation` (src/code.py lines 691-704):
read `file_path` from the session if present, edit the status message (no
filesystem effect), and run `safe_cleanup`. -/
def cancel_operation (fs : Fs) (ud : UserData) (removeOk : Bool) : Fs × UserData :=
  safe_cleanup fs (ud.pdf_data.map PdfData.file_path) removeOk ud

/-- Shallow embedding of `conversation_timeout` (src/code.py lines 707-736):
identical cleanup behaviour to `cancel_operation`. -/
def conversation_timeout (fs : Fs) (ud : UserData) (removeOk : Bool) : Fs × UserData :=
  safe_cleanup fs (ud.pdf_data.map PdfData.file_path) removeOk ud

/-- Outcome of the single `send_document` call in src/code.py lines
650-656. -/
inductive SendOutcome
  | ok
  | transientErr
  | unexpectedErr
deriving DecidableEq

/-- Conversation-state values returned by the handlers: `SELECTING_ACTION`
keeps the conversation open, `fallback` is `ConversationHandler.END`. -/
inductive ConvState
  | selectingAction
  | fallback
deriving DecidableEq

/-- Result of the delivery phase. -/
structure SendResult where
  fs : Fs
  ud : UserData
  state : ConvState
  attempts : Nat
deriving DecidableEq

/-- Shallow embedding of the delivery phase of src/code.py `apply_changes`
(lines 648-688): exactly one `send_document` call; on `TelegramError`/
`NetworkError` the handler returns `SELECTING_ACTION`, on success
`FALLBACK`; either way the `finally` block runs
`safe_cleanup(new_filepath, ...)` before the function returns, removing the
renamed file and popping the session entries. -/
def apply_send (fs : Fs) (newPath : List Char) (ud : UserData)
    (outcome : SendOutcome) (removeOk : Bool) : SendResult :=
  let cleaned := safe_cleanup fs (some newPath) removeOk ud
  { fs := cleaned.1
    ud := cleaned.2
    state :=
      match outcome with
      | SendOutcome.ok => ConvState.fallback
      | SendOutcome.transientErr => ConvState.selectingAction
      | SendOutcome.unexpectedErr => ConvState.selectingAction
    attempts := 1 }

/-- Outcome of the text-directive handlers of src/code.py. -/
inductive ReceiveOutcome
  | sessionExpired
  | rejected
  | stored (d : PdfData)
deriving DecidableEq

/-- Shallow embedding of `receive_prefix` (src/code.py lines 395-418):
sanitize the input; the `if not prefix` branch rejects, otherwise the
sanitized text is stored as the prefix directive. -/
def receive_prefix_step (input : List Char) (pd : Option PdfData) : ReceiveOutcome :=
  match pd with
  | none => ReceiveOutcome.sessionExpired
  | some d =>
    let p := sanitize_filename input
    if p.isEmpty then ReceiveOutcome.rejected
    else ReceiveOutcome.stored { d with prefix_ := p }

/-- Shallow embedding of `receive_suffix` (src/code.py lines 421-441),
symmetric to `receive_prefix_step`. -/
def receive_suffix_step (input : List Char) (pd : Option PdfData) : ReceiveOutcome :=
  match pd with
  | none => ReceiveOutcome.sessionExpired
  | some d =>
    let p := sanitize_filename input
    if p.isEmpty then ReceiveOutcome.rejected
    else ReceiveOutcome.stored { d with suffix := p }


/-! ## Basic lemmas about the Python string primitives -/

theorem isPrefixOf_eq_true_iff {l₁ l₂ : List Char} :
    l₁.isPrefixOf l₂ = true ↔ l₁ <+: l₂ := List.isPrefixOf_iff_prefix

theorem pyReplace_dd (s : List Char) :
    pyReplace ['.', '.'] [] s = replAux ['.', '.'] [] 0 s := rfl

theorem replAux_nil (old new : List Char) (k : Nat) : replAux old new k [] = [] := by
  cases k <;> rfl

theorem replAux_skip (old new : List Char) (k : Nat) (c : Char) (rest : List Char) :
    replAux old new (k + 1) (c :: rest) = replAux old new k rest := rfl

theorem replAux_zero_cons (old new : List Char) (c : Char) (rest : List Char) :
    replAux old new 0 (c :: rest) =
      if old.isPrefixOf (c :: rest) then new ++ replAux old new (old.length - 1) rest
      else c :: replAux old new 0 rest := rfl

/-- The scan consumes a matched `..` whole. -/
theorem replAux_dd_cons_cons (rest : List Char) :
    replAux ['.', '.'] [] 0 ('.' :: '.' :: rest) = replAux ['.', '.'] [] 0 rest := by
  conv_lhs => rw [replAux]
  simp [List.isPrefixOf]
  rw [replAux]

theorem dd_pre_false_left (c : Char) (rest : List Char) (hc : c ≠ '.') :
    (['.', '.']).isPrefixOf (c :: rest) = false := by
  cases hb : (['.', '.']).isPrefixOf (c :: rest) with
  | false => rfl
  | true =>
    exfalso
    rcases isPrefixOf_eq_true_iff.mp hb with ⟨t, ht⟩
    simp only [List.cons_append, List.nil_append, List.cons.injEq] at ht
    exact hc ht.1.symm

theorem dd_pre_false_right (d : Char) (rest : List Char) (hd : d ≠ '.') :
    (['.', '.']).isPrefixOf ('.' :: d :: rest) = false := by
  cases hb : (['.', '.']).isPrefixOf ('.' :: d :: rest) with
  | false => rfl
  | true =>
    exfalso
    rcases isPrefixOf_eq_true_iff.mp hb with ⟨t, ht⟩
    simp only [List.cons_append, List.nil_append, List.cons.injEq] at ht
    exact hd ht.2.1.symm

theorem replAux_dd_cons_of_ne (c : Char) (rest : List Char) (hc : c ≠ '.') :
    replAux ['.', '.'] [] 0 (c :: rest) = c :: replAux ['.', '.'] [] 0 rest := by
  rw [replAux_zero_cons, dd_pre_false_left c rest hc, if_neg (by simp)]

theorem replAux_dd_dot_cons_of_ne (d : Char) (rest : List Char) (hd : d ≠ '.') :
    replAux ['.', '.'] [] 0 ('.' :: d :: rest) =
      '.' :: replAux ['.', '.'] [] 0 (d :: rest) := by
  rw [replAux_zero_cons ['.', '.'] [] '.' (d :: rest), dd_pre_false_right d rest hd,
    if_neg (by simp)]

/-- The `..`-removal scan only deletes characters. -/
theorem replAux_del_sub (old : List Char) :
    ∀ (l : List Char) (k : Nat), List.Sublist (replAux old [] k l) l := by
  intro l
  induction l with
  | nil => intro k; rw [replAux_nil]
  | cons c rest ih =>
    intro k
    cases k with
    | succ k => exact (ih k).trans (List.sublist_cons_self c rest)
    | zero =>
      rw [replAux_zero_cons]
      by_cases h : old.isPrefixOf (c :: rest)
      · simp only [h, if_true, List.nil_append]
        exact (ih (old.length - 1)).trans (List.sublist_cons_self c rest)
      · simp only [h, if_false]
        exact (ih 0).cons₂ c

/-- After the scan for `..`, no occurrence of `..` remains. -/
theorem replAux_dd_no_dd_aux :
    ∀ (n : Nat) (l : List Char), l.length ≤ n →
      ¬ (['.', '.'] <:+: replAux ['.', '.'] [] 0 l) := by
  intro n
  induction n with
  | zero =>
    intro l hl
    have h0 : l = [] := List.length_eq_zero.mp (Nat.le_zero.mp hl)
    subst h0
    rw [replAux_nil]
    intro h
    exact absurd (List.infix_nil.mp h) (by decide)
  | succ n ih =>
    intro l hl
    match l with
    | [] =>
      rw [replAux_nil]
      intro h
      exact absurd (List.infix_nil.mp h) (by decide)
    | [c] =>
      by_cases hc : c = '.'
      · subst hc
        intro h
        have := h.sublist.length_le
        have hs := (replAux_del_sub ['.', '.'] ['.'] 0).length_le
        simp at this hs
        omega
      · rw [replAux_dd_cons_of_ne c [] hc, replAux_nil]
        intro h
        have := h.sublist.length_le
        simp at this
    | c :: d :: rest2 =>
      have hlen : (d :: rest2).length ≤ n := by
        simp only [List.length_cons] at hl ⊢
        omega
      by_cases hc : c = '.'
      · by_cases hd : d = '.'
        · subst hc; subst hd
          rw [replAux_dd_cons_cons]
          exact ih rest2 (by simp only [List.length_cons] at hl ⊢; omega)
        · subst hc
          rw [replAux_dd_dot_cons_of_ne d rest2 hd]
          intro h
          rcases List.infix_cons_iff.mp h with hp | hi
          · rcases hp with ⟨t, ht⟩
            rw [replAux_zero_cons, dd_pre_false_left d rest2 hd, if_neg (by simp)] at ht
            simp only [List.cons_append, List.nil_append, List.cons.injEq] at ht
            exact hd ht.2.1.symm
          · exact ih (d :: rest2) hlen hi
      · rw [replAux_dd_cons_of_ne c (d :: rest2) hc]
        intro h
        rcases List.infix_cons_iff.mp h with hp | hi
        · rcases hp with ⟨t, ht⟩
          simp only [List.cons_append, List.nil_append, List.cons.injEq] at ht
          exact hc ht.1.symm
        · exact ih (d :: rest2) hlen hi

theorem replAux_dd_no_dd (l : List Char) :
    ¬ (['.', '.'] <:+: replAux ['.', '.'] [] 0 l) :=
  replAux_dd_no_dd_aux l.length l le_rfl

/-- On a string with no occurrence of `..`, the `..`-removal scan is the
identity. -/
theorem replAux_dd_of_no_dd :
    ∀ (l : List Char), ¬ (['.', '.'] <:+: l) → replAux ['.', '.'] [] 0 l = l := by
  intro l
  induction l with
  | nil => intro _; rw [replAux_nil]
  | cons c rest ih =>
    intro h
    have hpre : (['.', '.']).isPrefixOf (c :: rest) = false := by
      cases hb : (['.', '.']).isPrefixOf (c :: rest) with
      | false => rfl
      | true => exact absurd (isPrefixOf_eq_true_iff.mp hb).isInfix h
    rw [replAux_zero_cons, hpre, if_neg (by simp)]
    rw [ih (fun hi => h (List.infix_cons hi))]

/-! ## Strip lemmas -/

theorem reverse_prefix_iff {α : Type} {l₁ l₂ : List α} :
    l₁.reverse <+: l₂.reverse ↔ l₁ <:+ l₂ := List.reverse_prefix

theorem dropWhile_self_idem (p : Char → Bool) (l : List Char) :
    (l.dropWhile p).dropWhile p = l.dropWhile p := by
  induction l with
  | nil => rfl
  | cons c rest ih =>
    by_cases h : p c
    · rw [List.dropWhile_cons_of_pos h]
      exact ih
    · rw [List.dropWhile_cons_of_neg h, List.dropWhile_cons_of_neg h]

/-- The strip result is a prefix of the left-stripped list. -/
theorem pyStrip_pre_dropWhile (p : Char → Bool) (l : List Char) :
    pyStrip p l <+: l.dropWhile p := by
  have h1 : ((l.dropWhile p).reverse.dropWhile p) <:+ (l.dropWhile p).reverse :=
    List.dropWhile_suffix p
  have h2 := reverse_prefix_iff.mpr h1
  rwa [List.reverse_reverse] at h2

/-- The strip result sits inside the original list. -/
theorem pyStrip_infix_orig (p : Char → Bool) (l : List Char) :
    pyStrip p l <:+: l :=
  (pyStrip_pre_dropWhile p l).isInfix.trans (List.dropWhile_suffix p).isInfix

/-- The strip result starts with a character outside the strip set (when
non-empty), so left-stripping it again does nothing. -/
theorem pyStrip_dropWhile_fix (p : Char → Bool) (l : List Char) :
    (pyStrip p l).dropWhile p = pyStrip p l := by
  cases hr : pyStrip p l with
  | nil => rfl
  | cons c t =>
    have hpre : pyStrip p l <+: l.dropWhile p := pyStrip_pre_dropWhile p l
    rw [hr] at hpre
    rcases hpre with ⟨u, hu⟩
    have hu' : l.dropWhile p = c :: (t ++ u) := by
      rw [← hu]; simp
    have hw : l.dropWhile p ≠ [] := by
      rw [hu']; simp
    have hhead := List.head_dropWhile_not p l hw
    simp only [hu', List.head_cons] at hhead
    exact List.dropWhile_cons_of_neg (by simp [hhead])

theorem pyStrip_idem (p : Char → Bool) (l : List Char) :
    pyStrip p (pyStrip p l) = pyStrip p l := by
  show (((pyStrip p l).dropWhile p).reverse.dropWhile p).reverse = pyStrip p l
  rw [pyStrip_dropWhile_fix]
  show (((((l.dropWhile p).reverse.dropWhile p).reverse).reverse.dropWhile p).reverse : List Char) =
    pyStrip p l
  rw [List.reverse_reverse, dropWhile_self_idem]
  rfl

/-! ## The sanitizer core -/

theorem sanitize_filename_eq_core (s : List Char) :
    sanitize_filename s = sanitize_core isSpaceOrDot s := rfl

theorem bot_sanitize_filename_eq_core (s : List Char) :
    bot_sanitize_filename s = sanitize_core isPyWhitespace s := rfl

theorem claimBad_imp_illegal (c : Char) :
    isClaimBadChar c = true → isIllegalChar c = true := by
  simp only [isClaimBadChar, isIllegalChar, Bool.or_eq_true, beq_iff_eq]
  intro h
  rcases h with ((((((((h | h) | h) | h) | h) | h) | h) | h) | h) <;> subst h <;> decide

/-- Every character surviving the pipeline inside `sanitize_core` already
survived the illegal-character filter. -/
theorem sanitize_core_mem_filter (p : Char → Bool) (s : List Char) (c : Char)
    (hc : c ∈ pyStrip p (pyReplace ['.', '.'] [] (s.filter (fun x => !isIllegalChar x)))) :
    (!isIllegalChar c) = true := by
  have h1 : c ∈ pyReplace ['.', '.'] [] (s.filter (fun x => !isIllegalChar x)) :=
    (pyStrip_infix_orig p _).subset hc
  rw [pyReplace_dd] at h1
  have h2 : c ∈ s.filter (fun x => !isIllegalChar x) :=
    (replAux_del_sub ['.', '.'] _ 0).subset h1
  exact (List.mem_filter.mp h2).2

theorem sanitize_core_f3_no_dd (p : Char → Bool) (s : List Char) :
    ¬ (['.', '.'] <:+: pyStrip p (pyReplace ['.', '.'] [] (s.filter (fun x => !isIllegalChar x)))) := by
  intro h
  have h1 : ['.', '.'] <:+: pyReplace ['.', '.'] [] (s.filter (fun x => !isIllegalChar x)) :=
    h.trans (pyStrip_infix_orig p _)
  rw [pyReplace_dd] at h1
  exact replAux_dd_no_dd _ h1

theorem sanitize_core_idem (p : Char → Bool)
    (hU : sanitize_core p ("unnamed.pdf".toList) = "unnamed.pdf".toList) (s : List Char) :
    sanitize_core p (sanitize_core p s) = sanitize_core p s := by
  by_cases h3 : (pyStrip p (pyReplace ['.', '.'] [] (s.filter (fun x => !isIllegalChar x)))).isEmpty
  · have hs : sanitize_core p s = "unnamed.pdf".toList := by
      unfold sanitize_core
      rw [if_pos h3]
    rw [hs, hU]
  · have hs : sanitize_core p s =
        pyStrip p (pyReplace ['.', '.'] [] (s.filter (fun x => !isIllegalChar x))) := by
      unfold sanitize_core
      rw [if_neg h3]
    rw [hs]
    set r := pyStrip p (pyReplace ['.', '.'] [] (s.filter (fun x => !isIllegalChar x))) with hr
    have hfil : r.filter (fun x => !isIllegalChar x) = r :=
      List.filter_eq_self.mpr (fun c hc => sanitize_core_mem_filter p s c (hr ▸ hc))
    have hrep : pyReplace ['.', '.'] [] r = r := by
      rw [pyReplace_dd]
      exact replAux_dd_of_no_dd r (hr ▸ sanitize_core_f3_no_dd p s)
    have hstrip : pyStrip p r = r := by
      rw [hr]
      exact pyStrip_idem p _
    unfold sanitize_core
    rw [hfil, hrep, hstrip, if_neg (hr ▸ h3)]

theorem sanitize_core_ne_nil (p : Char → Bool) (s : List Char) :
    sanitize_core p s ≠ [] := by
  unfold sanitize_core
  by_cases h : (pyStrip p (pyReplace ['.', '.'] [] (s.filter (fun x => !isIllegalChar x)))).isEmpty
  · rw [if_pos h]; decide
  · rw [if_neg h]
    intro hc
    exact h (by rw [hc]; rfl)

theorem sanitize_core_no_dd (p : Char → Bool) (s : List Char) :
    ¬ (['.', '.'] <:+: sanitize_core p s) := by
  unfold sanitize_core
  by_cases h : (pyStrip p (pyReplace ['.', '.'] [] (s.filter (fun x => !isIllegalChar x)))).isEmpty
  · rw [if_pos h]; decide
  · rw [if_neg h]
    exact sanitize_core_f3_no_dd p s

theorem sanitize_core_chars (p : Char → Bool) (s : List Char) :
    (sanitize_core p s).all (fun c => !isClaimBadChar c) = true := by
  rw [List.all_eq_true]
  intro c hc
  unfold sanitize_core at hc
  by_cases h : (pyStrip p (pyReplace ['.', '.'] [] (s.filter (fun x => !isIllegalChar x)))).isEmpty
  · rw [if_pos h] at hc
    have hU : ("unnamed.pdf".toList.all (fun c => !isClaimBadChar c)) = true := by decide
    exact List.all_eq_true.mp hU c hc
  · rw [if_neg h] at hc
    have hgood := sanitize_core_mem_filter p s c hc
    have hill : isIllegalChar c = false := by
      cases hx : isIllegalChar c with
      | false => rfl
      | true => rw [hx] at hgood; exact absurd hgood (by decide)
    cases hb : isClaimBadChar c with
    | false => simp [hb]
    | true => rw [claimBad_imp_illegal c hb] at hill; exact absurd hill (by decide)

/-- C5: sanitization is idempotent — for every string `x`,
`sanitize(sanitize(x)) == sanitize(x)`, for the `sanitize_filename` of
src/code.py and the `sanitize_filename` of src/bot.py alike. -/
theorem sanitize_idempotent (s : List Char) :
    sanitize_filename (sanitize_filename s) = sanitize_filename s ∧
    bot_sanitize_filename (bot_sanitize_filename s) = bot_sanitize_filename s := by
  constructor
  · simp only [sanitize_filename_eq_core]
    exact sanitize_core_idem isSpaceOrDot (by decide) s
  · simp only [bot_sanitize_filename_eq_core]
    exact sanitize_core_idem isPyWhitespace (by decide) s

/-- C6: for every string `x`, `sanitize(x)` contains none of the characters
`/ \ : * ? " < > |` and does not contain the substring `..` — including the
fallback name `"unnamed.pdf"` returned for empty results — in both source
variants of the sanitizer. -/
theorem sanitize_no_bad_chars (s : List Char) :
    (sanitize_filename s).all (fun c => !isClaimBadChar c) = true ∧
    ¬ (['.', '.'] <:+: sanitize_filename s) ∧
    (bot_sanitize_filename s).all (fun c => !isClaimBadChar c) = true ∧
    ¬ (['.', '.'] <:+: bot_sanitize_filename s) := by
  simp only [sanitize_filename_eq_core, bot_sanitize_filename_eq_core]
  exact ⟨sanitize_core_chars _ s, sanitize_core_no_dd _ s,
    sanitize_core_chars _ s, sanitize_core_no_dd _ s⟩

/-- C10: `sanitize_filename` never returns an empty string (it falls back to
`"unnamed.pdf"`), so `receive_prefix` and `receive_suffix` always store a
non-empty directive — their invalid-input rejection branches are
unreachable — and an input of only illegal characters is stored as the
literal `"unnamed.pdf"`. -/
theorem receive_prefix_suffix_never_rejected (input : List Char) (d : PdfData) :
    sanitize_filename input ≠ [] ∧
    receive_prefix_step input (some d) =
      ReceiveOutcome.stored { d with prefix_ := sanitize_filename input } ∧
    receive_suffix_step input (some d) =
      ReceiveOutcome.stored { d with suffix := sanitize_filename input } ∧
    receive_prefix_step "???".toList (some d) =
      ReceiveOutcome.stored { d with prefix_ := "unnamed.pdf".toList } := by
  have hem : ∀ inp : List Char, (sanitize_filename inp).isEmpty = false := by
    intro inp
    have hne : sanitize_filename inp ≠ [] := by
      rw [sanitize_filename_eq_core]
      exact sanitize_core_ne_nil _ _
    cases hx : (sanitize_filename inp).isEmpty with
    | false => rfl
    | true => exact absurd (List.isEmpty_iff.mp hx) hne
  have key : ∀ inp : List Char, receive_prefix_step inp (some d) =
      ReceiveOutcome.stored { d with prefix_ := sanitize_filename inp } := by
    intro inp
    simp [receive_prefix_step, hem inp]
  have key2 : ∀ inp : List Char, receive_suffix_step inp (some d) =
      ReceiveOutcome.stored { d with suffix := sanitize_filename inp } := by
    intro inp
    simp [receive_suffix_step, hem inp]
  have hq : sanitize_filename "???".toList = "unnamed.pdf".toList := by decide
  refine ⟨?_, key input, key2 input, ?_⟩
  · rw [sanitize_filename_eq_core]
    exact sanitize_core_ne_nil _ _
  · rw [key "???".toList, hq]

/-! ## Filesystem lemmas -/

theorem splitext_append (s : List Char) : (splitext s).1 ++ (splitext s).2 = s := by
  unfold splitext
  split
  · simp
  · split
    · simp
    · simp

theorem fsRemove_lookup_ne (fs : Fs) (p q : List Char) (hpq : p ≠ q) :
    (fsRemove fs p).lookup q = fs.lookup q := by
  induction fs with
  | nil => rfl
  | cons e rest ih =>
    obtain ⟨k, v⟩ := e
    unfold fsRemove at ih ⊢
    rw [List.filter_cons]
    by_cases hk : k = p
    · subst hk
      have hqk : (q == k) = false := by
        rw [beq_eq_false_iff_ne]
        exact fun h => hpq h.symm
      rw [if_neg (by simp), ih]
      simp [List.lookup_cons, hqk]
    · rw [if_pos (by simp [hk])]
      rw [List.lookup_cons, List.lookup_cons]
      cases hq : (q == k) with
      | true => rfl
      | false => exact ih

theorem fsRemove_not_exists (fs : Fs) (p : List Char) :
    fsExists (fsRemove fs p) p = false := by
  unfold fsExists fsRemove
  rw [Bool.eq_false_iff]
  intro hs
  rcases List.lookup_isSome_iff.mp hs with ⟨e, he, heq⟩
  have hmem := List.mem_filter.mp he
  have h1 : p = e.1 := by simpa using heq
  have h2 : e.1 ≠ p := by simpa using hmem.2
  exact h2 h1.symm

theorem fsRename_lookup_other (fs : Fs) (src dst q : List Char)
    (h1 : src ≠ q) (h2 : dst ≠ q) :
    (fsRename fs src dst).lookup q = fs.lookup q := by
  unfold fsRename
  cases hs : fs.lookup src with
  | none => rfl
  | some v =>
    have hd : (q == dst) = false := by
      rw [beq_eq_false_iff_ne]
      exact fun h => h2 h.symm
    rw [List.lookup_cons, hd]
    show (fsRemove (fsRemove fs src) dst).lookup q = fs.lookup q
    rw [fsRemove_lookup_ne _ _ _ h2, fsRemove_lookup_ne _ _ _ h1]

/-- C1: if the commit of the rename engine fails at the rename step, the
filesystem is exactly the pre-commit state: the original artifact at the
source path is unchanged, and no destination or temporary file exists that
did not exist before (the code creates no temporary file at all: it uses a
single `os.rename`, which either succeeds whole or raises leaving everything
in place). -/
theorem commit_failure_preserves_state (fs : Fs)
    (origPath userDir finalName micro : List Char) (renameOk : Bool)
    (hfail : (apply_commit fs origPath userDir finalName micro renameOk).dest = none) :
    (apply_commit fs origPath userDir finalName micro renameOk).fs = fs ∧
    (apply_commit fs origPath userDir finalName micro renameOk).fs.lookup origPath =
      fs.lookup origPath ∧
    ∀ p : List Char, fsExists fs p = false →
      fsExists (apply_commit fs origPath userDir finalName micro renameOk).fs p = false := by
  have hfs : (apply_commit fs origPath userDir finalName micro renameOk).fs = fs := by
    unfold apply_commit at hfail ⊢
    by_cases h1 : (origPath == pathJoin userDir finalName) = true
    · rw [if_pos h1] at hfail
      exact absurd hfail (by simp)
    · rw [if_neg h1] at hfail ⊢
      cases renameOk with
      | true => simp at hfail
      | false => simp
  exact ⟨hfs, by rw [hfs], fun p hp => by rw [hfs]; exact hp⟩

theorem commit_failure_preserves_state_witness :
    (apply_commit [("downloads/1/a_x.pdf".toList, 7)] "downloads/1/a_x.pdf".toList
        "downloads/1".toList "b.pdf".toList "123456".toList false).dest = none ∧
    (apply_commit [("downloads/1/a_x.pdf".toList, 7)] "downloads/1/a_x.pdf".toList
        "downloads/1".toList "b.pdf".toList "123456".toList false).fs =
      [("downloads/1/a_x.pdf".toList, 7)] :=
  ⟨by decide,
   (commit_failure_preserves_state [("downloads/1/a_x.pdf".toList, 7)]
      "downloads/1/a_x.pdf".toList "downloads/1".toList "b.pdf".toList "123456".toList
      false (by decide)).1⟩

/-- C4 counterexample: in the concrete state where the session holds the
artifact `downloads/1/a.pdf`, the file exists on disk and the `os.remove`
call raises (`removeOk = false`, the `except` branch of `safe_cleanup` that
logs and continues), a cancel event evicts the session record but the
artifact still exists on disk afterwards — so it is not the case that both
removal and eviction always happen. -/
theorem cancel_cleanup_counterexample :
    fsExists
      (cancel_operation [("downloads/1/a.pdf".toList, 5)]
        { pdf_data := some (initial_pdf_data "a.pdf".toList "downloads/1/a.pdf".toList)
          message_id := some 1 } false).1
      "downloads/1/a.pdf".toList = true ∧
    (cancel_operation [("downloads/1/a.pdf".toList, 5)]
      { pdf_data := some (initial_pdf_data "a.pdf".toList "downloads/1/a.pdf".toList)
        message_id := some 1 } false).2.pdf_data = none := by
  decide

/-- C4 amended: after a cancel event or a timeout event, the session record
(`pdf_data` and `message_id`) is always evicted; the artifact file is
removed from disk whenever the `os.remove` call succeeds — when it raises,
`safe_cleanup` logs and continues, leaving the file behind (removal is
best-effort per the error-handling design). -/
theorem cancel_timeout_cleanup (fs : Fs) (ud : UserData) (removeOk : Bool)
    (d : PdfData) (hd : ud.pdf_data = some d) :
    (cancel_operation fs ud removeOk).2.pdf_data = none ∧
    (cancel_operation fs ud removeOk).2.message_id = none ∧
    (conversation_timeout fs ud removeOk).2.pdf_data = none ∧
    (conversation_timeout fs ud removeOk).2.message_id = none ∧
    (removeOk = true →
      fsExists (cancel_operation fs ud removeOk).1 d.file_path = false) ∧
    (removeOk = true →
      fsExists (conversation_timeout fs ud removeOk).1 d.file_path = false) := by
  have hfs : ∀ rOk : Bool, rOk = true →
      fsExists (safe_cleanup fs (ud.pdf_data.map PdfData.file_path) rOk ud).1
        d.file_path = false := by
    intro rOk hr
    subst hr
    rw [hd]
    show fsExists
        (if fsExists fs d.file_path = true then
          (if true = true then fsRemove fs d.file_path else fs)
        else fs) d.file_path = false
    by_cases hex : fsExists fs d.file_path = true
    · rw [if_pos hex, if_pos rfl]
      exact fsRemove_not_exists fs d.file_path
    · rw [if_neg hex]
      exact Bool.eq_false_iff.mpr hex
  exact ⟨rfl, rfl, rfl, rfl, hfs removeOk, hfs removeOk⟩

theorem cancel_timeout_cleanup_witness :
    (cancel_operation [("downloads/1/a.pdf".toList, 5)]
      { pdf_data := some (initial_pdf_data "a.pdf".toList "downloads/1/a.pdf".toList)
        message_id := some 1 } true).2.pdf_data = none ∧
    fsExists
      (cancel_operation [("downloads/1/a.pdf".toList, 5)]
        { pdf_data := some (initial_pdf_data "a.pdf".toList "downloads/1/a.pdf".toList)
          message_id := some 1 } true).1
      (initial_pdf_data "a.pdf".toList "downloads/1/a.pdf".toList).file_path = false :=
  ⟨(cancel_timeout_cleanup [("downloads/1/a.pdf".toList, 5)]
      { pdf_data := some (initial_pdf_data "a.pdf".toList "downloads/1/a.pdf".toList)
        message_id := some 1 } true
      (initial_pdf_data "a.pdf".toList "downloads/1/a.pdf".toList) rfl).1,
   (cancel_timeout_cleanup [("downloads/1/a.pdf".toList, 5)]
      { pdf_data := some (initial_pdf_data "a.pdf".toList "downloads/1/a.pdf".toList)
        message_id := some 1 } true
      (initial_pdf_data "a.pdf".toList "downloads/1/a.pdf".toList) rfl).2.2.2.2.1 rfl⟩

/-- C8 counterexample: with `d/orig.pdf` to commit as `d/doc.pdf`, where both
`d/doc.pdf` and the disambiguated `d/doc_123456.pdf` already exist
(`123456` being the current microseconds), the commit renames onto
`d/doc_123456.pdf` and silently replaces its content (content 9 becomes
content 1) — so it is not true that an existing file at the destination is
never silently overwritten: the existence check is not repeated after
disambiguation. -/
theorem collision_overwrite_counterexample :
    fsExists
      [("d/orig.pdf".toList, 1), ("d/doc.pdf".toList, 2), ("d/doc_123456.pdf".toList, 9)]
      "d/doc_123456.pdf".toList = true ∧
    ([("d/orig.pdf".toList, 1), ("d/doc.pdf".toList, 2),
        ("d/doc_123456.pdf".toList, 9)] : Fs).lookup "d/doc_123456.pdf".toList = some 9 ∧
    (apply_commit
        [("d/orig.pdf".toList, 1), ("d/doc.pdf".toList, 2), ("d/doc_123456.pdf".toList, 9)]
        "d/orig.pdf".toList "d".toList "doc.pdf".toList "123456".toList true).dest =
      some "d/doc_123456.pdf".toList ∧
    (apply_commit
        [("d/orig.pdf".toList, 1), ("d/doc.pdf".toList, 2), ("d/doc_123456.pdf".toList, 9)]
        "d/orig.pdf".toList "d".toList "doc.pdf".toList "123456".toList true).fs.lookup
      "d/doc_123456.pdf".toList = some 1 := by
  decide

/-- C8 amended: if the destination path already exists at commit time, the
commit renames to a disambiguated destination instead — src/code.py appends
`"_" + datetime.now().strftime('%f')` (current-time microseconds) to the
stem, src/bot.py appends `"_" + user_id` — and the file at the original
destination path itself is left untouched; the existence check is not
repeated, however, so a file already sitting at the disambiguated path is
silently overwritten (see the counterexample). -/
theorem collision_disambiguation (fs : Fs)
    (origPath userDir finalName micro userId : List Char)
    (hex : fsExists fs (pathJoin userDir finalName) = true)
    (hne : (origPath == pathJoin userDir finalName) = false) :
    (apply_commit fs origPath userDir finalName micro true).dest =
      some (pathJoin userDir
        ((splitext finalName).1 ++ '_' :: micro ++ (splitext finalName).2)) ∧
    (bot_apply_commit fs origPath userDir finalName userId true).dest =
      some (pathJoin userDir
        ((splitext finalName).1 ++ '_' :: userId ++ (splitext finalName).2)) ∧
    (apply_commit fs origPath userDir finalName micro true).fs.lookup
        (pathJoin userDir finalName) = fs.lookup (pathJoin userDir finalName) ∧
    (bot_apply_commit fs origPath userDir finalName userId true).fs.lookup
        (pathJoin userDir finalName) = fs.lookup (pathJoin userDir finalName) := by
  have hstem : ∀ extra : List Char,
      (splitext finalName).1 ++ '_' :: extra ++ (splitext finalName).2 ≠ finalName := by
    intro extra h
    have hlen := congrArg List.length h
    have hsp := congrArg List.length (splitext_append finalName)
    simp only [List.length_append, List.length_cons] at hlen hsp
    omega
  have htgt : ∀ extra : List Char,
      pathJoin userDir ((splitext finalName).1 ++ '_' :: extra ++ (splitext finalName).2) ≠
        pathJoin userDir finalName := by
    intro extra h
    exact hstem extra (List.append_cancel_left h |> List.cons.inj |>.2)
  have hor : origPath ≠ pathJoin userDir finalName := by
    intro h
    rw [beq_eq_false_iff_ne] at hne
    exact hne h
  constructor
  · simp only [apply_commit]
    rw [if_neg (by simp [hne]), if_pos hex]
    simp
  constructor
  · simp only [bot_apply_commit]
    rw [if_pos hex]
    simp
  constructor
  · simp only [apply_commit]
    rw [if_neg (by simp [hne]), if_pos hex]
    simp only [if_true]
    exact fsRename_lookup_other fs _ _ _ hor (htgt micro)
  · simp only [bot_apply_commit]
    rw [if_pos hex]
    simp only [if_true]
    exact fsRename_lookup_other fs _ _ _ hor (htgt userId)

theorem collision_disambiguation_witness :
    (apply_commit [("d/o.pdf".toList, 1), ("d/doc.pdf".toList, 2)] "d/o.pdf".toList
        "d".toList "doc.pdf".toList "123456".toList true).dest =
      some "d/doc_123456.pdf".toList ∧
    (apply_commit [("d/o.pdf".toList, 1), ("d/doc.pdf".toList, 2)] "d/o.pdf".toList
        "d".toList "doc.pdf".toList "123456".toList true).fs.lookup
      (pathJoin "d".toList "doc.pdf".toList) = some 2 := by
  have h := collision_disambiguation [("d/o.pdf".toList, 1), ("d/doc.pdf".toList, 2)]
    "d/o.pdf".toList "d".toList "doc.pdf".toList "123456".toList "42".toList
    (by decide) (by decide)
  exact ⟨by rw [h.1]; decide, by rw [h.2.2.1]; decide⟩

/-- C2 counterexample: for original name `"My Report.pdf"` with directives
`{prefix: "Q1_", case: upper}`, the preview is `"Q1__MY REPORT.pdf"` — the
composition joins the non-empty parts with a `"_"` separator, so the stored
prefix `"Q1_"` is followed by another underscore — not the claimed
`"Q1_MY REPORT.pdf"`. -/
theorem preview_scenario_counterexample :
    generate_preview_filename
      { initial_pdf_data "My Report.pdf".toList [] with
        prefix_ := "Q1_".toList, caseMode := some CaseMode.upper } =
      "Q1__MY REPORT.pdf".toList ∧
    generate_preview_filename
      { initial_pdf_data "My Report.pdf".toList [] with
        prefix_ := "Q1_".toList, caseMode := some CaseMode.upper } ≠
      "Q1_MY REPORT.pdf".toList := by
  decide

/-- C2 amended: the preview pipeline applies remove, replace and caseMode to
the stem in that order, then composes the parts in the order
`prefix, timestamp, stem, suffix` — timestamp before the stem, not after the
suffix — joined with a single `"_"` between the non-empty parts, substitutes
`"renamed_pdf"` for an empty composition, appends the extension and
sanitizes; the scenario `"My Report.pdf"` with
`{prefix: "Q1_", case: upper}` previews as `"Q1__MY REPORT.pdf"`. -/
theorem preview_pipeline_order (d : PdfData) :
    pipeline_stem d =
      case_step d.caseMode
        (replace_step d.replace_old d.replace_new
          (remove_step d.remove (splitext d.original_name).1)) ∧
    compose_base d (pipeline_stem d) =
      List.intercalate ['_']
        ([d.prefix_, d.timestamp, pipeline_stem d, d.suffix].filter (fun p => !p.isEmpty)) ∧
    generate_preview_filename d =
      sanitize_filename
        ((if (pyStrip isSpaceOrDot (compose_base d (pipeline_stem d))).isEmpty
          then "renamed_pdf".toList
          else compose_base d (pipeline_stem d)) ++ (splitext d.original_name).2) ∧
    generate_preview_filename
      { initial_pdf_data "My Report.pdf".toList [] with
        prefix_ := "Q1_".toList, caseMode := some CaseMode.upper } =
      "Q1__MY REPORT.pdf".toList :=
  ⟨rfl, rfl, rfl, by decide⟩

/-- C9 counterexample: with original name `"a.pdf"` and directive
`remove: "a"` the composed base name is empty, and the pipeline substitutes
`"renamed_pdf"` — the preview is `"renamed_pdf.pdf"`, not the claimed
`"unnamed" + extension`; the fallback inside `sanitize_filename` is the
fixed literal `"unnamed.pdf"` regardless of the input's extension. -/
theorem preview_fallback_counterexample :
    generate_preview_filename
      { initial_pdf_data "a.pdf".toList [] with remove := "a".toList } =
      "renamed_pdf.pdf".toList ∧
    generate_preview_filename
      { initial_pdf_data "a.pdf".toList [] with remove := "a".toList } ≠
      "unnamed.pdf".toList ∧
    sanitize_filename "a".toList ≠ [] ∧
    sanitize_filename [] = "unnamed.pdf".toList := by
  decide

/-- C9 amended: the pipeline never yields an empty filename; when the
composed base name is empty after stripping spaces and dots, the pipeline
substitutes the literal `"renamed_pdf"` (plus the extension) before
sanitizing, and `sanitize_filename` itself substitutes the fixed literal
`"unnamed.pdf"` (not `"unnamed"` plus the input's extension) when its
result is empty. -/
theorem preview_never_empty (d : PdfData) (s : List Char) :
    generate_preview_filename d ≠ [] ∧
    ((pyStrip isSpaceOrDot (compose_base d (pipeline_stem d))).isEmpty = true →
      generate_preview_filename d =
        sanitize_filename ("renamed_pdf".toList ++ (splitext d.original_name).2)) ∧
    ((pyStrip isSpaceOrDot
        (pyReplace ['.', '.'] [] (s.filter (fun c => !isIllegalChar c)))).isEmpty = true →
      sanitize_filename s = "unnamed.pdf".toList) := by
  refine ⟨?_, ?_, ?_⟩
  · show sanitize_filename
      ((if (pyStrip isSpaceOrDot (compose_base d (pipeline_stem d))).isEmpty
        then "renamed_pdf".toList
        else compose_base d (pipeline_stem d)) ++ (splitext d.original_name).2) ≠ []
    rw [sanitize_filename_eq_core]
    exact sanitize_core_ne_nil _ _
  · intro h
    show sanitize_filename
      ((if (pyStrip isSpaceOrDot (compose_base d (pipeline_stem d))).isEmpty
        then "renamed_pdf".toList
        else compose_base d (pipeline_stem d)) ++ (splitext d.original_name).2) =
      sanitize_filename ("renamed_pdf".toList ++ (splitext d.original_name).2)
    rw [if_pos h]
  · intro h
    show (if (pyStrip isSpaceOrDot
        (pyReplace ['.', '.'] [] (s.filter (fun c => !isIllegalChar c)))).isEmpty
      then "unnamed.pdf".toList
      else pyStrip isSpaceOrDot
        (pyReplace ['.', '.'] [] (s.filter (fun c => !isIllegalChar c)))) =
      "unnamed.pdf".toList
    rw [if_pos h]

theorem preview_never_empty_witness :
    generate_preview_filename
      { initial_pdf_data "a.pdf".toList [] with remove := "a".toList } ≠ [] ∧
    generate_preview_filename
      { initial_pdf_data "a.pdf".toList [] with remove := "a".toList } =
      sanitize_filename ("renamed_pdf".toList ++
        (splitext ({ initial_pdf_data "a.pdf".toList [] with
          remove := "a".toList } : PdfData).original_name).2) :=
  ⟨(preview_never_empty
      { initial_pdf_data "a.pdf".toList [] with remove := "a".toList } []).1,
   (preview_never_empty
      { initial_pdf_data "a.pdf".toList [] with remove := "a".toList } []).2.1 (by decide)⟩

/-! ## Replace as split-and-join -/

theorem intercalate_single_seg (s a : List Char) : List.intercalate s [a] = a := by
  simp [List.intercalate]

theorem intercalate_cons₂_seg (s a b : List Char) (t : List (List Char)) :
    List.intercalate s (a :: b :: t) = a ++ s ++ List.intercalate s (b :: t) := by
  simp [List.intercalate]

theorem splitAux_ne_nil (sep : List Char) :
    ∀ (l : List Char) (k : Nat), splitAux sep k l ≠ [] := by
  intro l
  induction l with
  | nil =>
    intro k
    cases k <;> exact fun h => List.noConfusion h
  | cons c rest ih =>
    intro k
    cases k with
    | succ k => exact ih k
    | zero =>
      rw [show splitAux sep 0 (c :: rest) =
        (if sep.isPrefixOf (c :: rest) then [] :: splitAux sep (sep.length - 1) rest
         else consFirstSeg c (splitAux sep 0 rest)) from rfl]
      by_cases h : sep.isPrefixOf (c :: rest)
      · rw [if_pos h]
        exact fun hc => List.noConfusion hc
      · rw [if_neg h]
        cases hs : splitAux sep 0 rest with
        | nil => exact absurd hs (ih 0)
        | cons seg t => exact fun hc => List.noConfusion hc

theorem intercalate_consFirstSeg (new : List Char) (c : Char) (L : List (List Char))
    (hL : L ≠ []) :
    List.intercalate new (consFirstSeg c L) = c :: List.intercalate new L := by
  cases L with
  | nil => exact absurd rfl hL
  | cons seg t =>
    cases t with
    | nil =>
      show List.intercalate new [c :: seg] = c :: List.intercalate new [seg]
      rw [intercalate_single_seg, intercalate_single_seg]
    | cons b t2 =>
      show List.intercalate new ((c :: seg) :: b :: t2) =
        c :: List.intercalate new (seg :: b :: t2)
      rw [intercalate_cons₂_seg, intercalate_cons₂_seg]
      simp

/-- Python `replace` is join-with-`new` of split-on-`old`: every occurrence
found by the scan is rewritten. -/
theorem replAux_eq_intercalate (old new : List Char) :
    ∀ (l : List Char) (k : Nat),
      replAux old new k l = List.intercalate new (splitAux old k l) := by
  intro l
  induction l with
  | nil =>
    intro k
    rw [replAux_nil]
    cases k with
    | zero => rw [show splitAux old 0 [] = [[]] from rfl, intercalate_single_seg]
    | succ n => rw [show splitAux old (n + 1) [] = [[]] from rfl, intercalate_single_seg]
  | cons c rest ih =>
    intro k
    cases k with
    | succ k => exact ih k
    | zero =>
      rw [replAux_zero_cons,
        show splitAux old 0 (c :: rest) =
          (if old.isPrefixOf (c :: rest) then [] :: splitAux old (old.length - 1) rest
           else consFirstSeg c (splitAux old 0 rest)) from rfl]
      by_cases h : old.isPrefixOf (c :: rest)
      · rw [if_pos h, if_pos h]
        cases hs : splitAux old (old.length - 1) rest with
        | nil => exact absurd hs (splitAux_ne_nil old rest _)
        | cons seg t =>
          rw [intercalate_cons₂_seg]
          rw [ih (old.length - 1), hs]
          simp
      · rw [if_neg h, if_neg h]
        rw [intercalate_consFirstSeg new c _ (splitAux_ne_nil old rest 0), ih 0]

theorem pyReplace_eq_split (old new s : List Char) (hold : old ≠ []) :
    pyReplace old new s = List.intercalate new (pySplit old s) := by
  unfold pyReplace pySplit
  rw [if_neg (by simp [List.isEmpty_iff, hold])]
  exact replAux_eq_intercalate old new s 0

/-- C7 counterexample: in the apply-step of src/bot.py, with stem `"abc"`,
`replace.old = "a"` and `replace.new = ""` (a delete-replacement), the
replacement is skipped — the computed name keeps the `"a"` — whereas the
claim requires every occurrence of `"a"` to be deleted (yielding
`"bc.pdf"`, which is `new.join(stem.split(old))` with extension). -/
theorem bot_replace_empty_new_counterexample :
    bot_compute_new_filename "abc.pdf".toList [] [] [] "a".toList [] =
      some "abc.pdf".toList ∧
    List.intercalate [] (pySplit "a".toList "abc".toList) = "bc".toList ∧
    bot_replace_step "a".toList [] "abc".toList = "abc".toList := by
  decide

/-- C7 amended: in `generate_preview_filename` (src/code.py) the replace
step rewrites every occurrence of a non-empty `old` to `new` — the result is
`new.join(stem.split(old))` — including when `new` is the empty string; an
empty `replace.old` or an empty `removeText` leaves the stem unchanged
(never a whole-string match); in src/bot.py's `apply_changes`, however, the
replacement is additionally skipped whenever `replace.new` is empty. -/
theorem replace_step_semantics (stem old new remove : List Char) (hold : old ≠ []) :
    replace_step old (some new) stem = List.intercalate new (pySplit old stem) ∧
    remove_step old stem = List.intercalate [] (pySplit old stem) ∧
    replace_step [] (some new) stem = stem ∧
    remove_step [] stem = stem ∧
    bot_replace_step old [] stem = stem ∧
    (remove ≠ [] → remove_step remove stem = pyReplace remove [] stem) := by
  have hemp : old.isEmpty = false := by
    simp [List.isEmpty_iff, hold]
  refine ⟨?_, ?_, rfl, rfl, ?_, ?_⟩
  · unfold replace_step
    rw [if_pos (by simp [hemp])]
    exact pyReplace_eq_split old new stem hold
  · unfold remove_step
    rw [if_neg (by simp [hemp])]
    exact pyReplace_eq_split old [] stem hold
  · unfold bot_replace_step
    rw [if_neg (by simp)]
  · intro hrem
    unfold remove_step
    rw [if_neg (by simp [List.isEmpty_iff, hrem])]

theorem replace_step_semantics_witness :
    replace_step "a".toList (some []) "abc".toList =
      List.intercalate [] (pySplit "a".toList "abc".toList) ∧
    replace_step [] (some "x".toList) "abc".toList = "abc".toList :=
  ⟨(replace_step_semantics "abc".toList "a".toList [] [] (by decide)).1,
   (replace_step_semantics "abc".toList "a".toList "x".toList [] (by decide)).2.2.1⟩

/-- C3: the delivery phase of src/code.py `apply_changes` makes exactly one
`send_document` attempt — there is no retry loop and no backoff — and when
that attempt fails with a transient transport error, the `finally` block
still runs `safe_cleanup(new_filepath, ...)`, deleting the committed
(renamed) artifact from disk and evicting the session data, even though the
handler returns `SELECTING_ACTION` to "allow retry" and the code's own
comment says "If sending failed, the file remains for potential retry".
Evaluated at the failing input: rename committed to
`downloads/1/Q1_doc.pdf`, send raises `NetworkError`, remove succeeds. -/
theorem delivery_failure_deletes_artifact :
    (apply_send [("downloads/1/Q1_doc.pdf".toList, 3)] "downloads/1/Q1_doc.pdf".toList
        { pdf_data := some (initial_pdf_data "doc.pdf".toList "downloads/1/Q1_doc.pdf".toList)
          message_id := some 9 } SendOutcome.transientErr true).attempts = 1 ∧
    fsExists
      (apply_send [("downloads/1/Q1_doc.pdf".toList, 3)] "downloads/1/Q1_doc.pdf".toList
        { pdf_data := some (initial_pdf_data "doc.pdf".toList "downloads/1/Q1_doc.pdf".toList)
          message_id := some 9 } SendOutcome.transientErr true).fs
      "downloads/1/Q1_doc.pdf".toList = false ∧
    (apply_send [("downloads/1/Q1_doc.pdf".toList, 3)] "downloads/1/Q1_doc.pdf".toList
        { pdf_data := some (initial_pdf_data "doc.pdf".toList "downloads/1/Q1_doc.pdf".toList)
          message_id := some 9 } SendOutcome.transientErr true).ud.pdf_data = none ∧
    (apply_send [("downloads/1/Q1_doc.pdf".toList, 3)] "downloads/1/Q1_doc.pdf".toList
        { pdf_data := some (initial_pdf_data "doc.pdf".toList "downloads/1/Q1_doc.pdf".toList)
          message_id := some 9 } SendOutcome.transientErr true).state =
      ConvState.selectingAction := by
  decide
